import Mathlib

/-!
Verification of the asynchronous SEQ log dispatcher (`main.go`).

The Go program is embedded shallowly:

* `LogMessage` mirrors the `LogMessage` struct.
* Field values (`map[string]interface{}`) are modelled by the mutual
  inductives `GoVal`/`GoFields`; `json.Marshal` of such a value is
  `GoVal.toJson`, which fails (returns `none`) exactly on values the
  Go encoder cannot serialize (channels, functions, ...), modelled by
  `GoVal.gunsupported`.
* `validateLogMessage`, `Log` and the worker loop `processLogs` are
  translated function by function; each `log.Printf` side effect of the
  Go code becomes an `Event` in the worker's output trace, and the HTTP
  transport (`client.Do`) is an oracle `Nat → SendResult` giving the
  result of the k-th send.
* The buffered channel `logChan` is modelled by the labelled transition
  system `ChanStep` implementing Go's buffered-channel semantics: a send
  is enabled only while the buffer holds fewer than `cap` messages, a
  receive pops the front.
-/

/-- Abstract JSON values, the codomain of `json.Marshal`. Numbers are
modelled as integers (no claim under study involves fractional values). -/
inductive JVal where
  | null : JVal
  | bool : Bool → JVal
  | num : Int → JVal
  | str : String → JVal
  | arr : List JVal → JVal
  | obj : List (String × JVal) → JVal

mutual
/-- A Go `interface{}` value stored in a log message's field map:
strings, numbers, booleans, nested maps, or a value the JSON encoder
rejects (channel, function, ...), tagged `gunsupported`. -/
inductive GoVal where
  | gnull : GoVal
  | gbool : Bool → GoVal
  | gint : Int → GoVal
  | gstr : String → GoVal
  | gmap : GoFields → GoVal
  | gunsupported : String → GoVal

/-- The entries of a Go `map[string]interface{}`, in a canonical order
(the spec declares insertion order irrelevant). -/
inductive GoFields where
  | nil : GoFields
  | cons : String → GoVal → GoFields → GoFields
end

mutual
/-- `json.Marshal` on a field value: total on supported values, `none`
as soon as an unsupported value occurs anywhere inside. -/
def GoVal.toJson : GoVal → Option JVal
  | .gnull => some .null
  | .gbool b => some (.bool b)
  | .gint n => some (.num n)
  | .gstr s => some (.str s)
  | .gmap m => Option.map JVal.obj (GoFields.toJson m)
  | .gunsupported _ => none

/-- `json.Marshal` on a field map, entry by entry. -/
def GoFields.toJson : GoFields → Option (List (String × JVal))
  | .nil => some []
  | .cons k v rest =>
    (GoVal.toJson v).bind (fun jv =>
      (GoFields.toJson rest).bind (fun jr => some ((k, jv) :: jr)))
end

mutual
/-- Decode a JSON value back into a Go field value (inverse of
`GoVal.toJson` on its image; arrays never occur in that image). -/
def JVal.toGo : JVal → GoVal
  | .null => .gnull
  | .bool b => .gbool b
  | .num n => .gint n
  | .str s => .gstr s
  | .arr _ => .gunsupported "array"
  | .obj l => .gmap (goFieldsOf l)

/-- Decode a JSON object's entry list back into a Go field map. -/
def goFieldsOf : List (String × JVal) → GoFields
  | [] => .nil
  | (k, v) :: rest => .cons k (JVal.toGo v) (goFieldsOf rest)
end

mutual
/-- Decoding is a left inverse of serialization on field values. -/
theorem goValRoundtrip : ∀ (v : GoVal) (j : JVal),
    GoVal.toJson v = some j → JVal.toGo j = v
  | .gnull, j, h => by
    simp [GoVal.toJson] at h
    subst h
    rfl
  | .gbool b, j, h => by
    simp [GoVal.toJson] at h
    subst h
    rfl
  | .gint n, j, h => by
    simp [GoVal.toJson] at h
    subst h
    rfl
  | .gstr s, j, h => by
    simp [GoVal.toJson] at h
    subst h
    rfl
  | .gmap m, j, h => by
    simp [GoVal.toJson] at h
    obtain ⟨l, hl, hj⟩ := h
    subst hj
    simp [JVal.toGo]
    exact goFieldsRoundtrip m l hl
  | .gunsupported s, j, h => by
    simp [GoVal.toJson] at h

/-- Decoding is a left inverse of serialization on field maps. -/
theorem goFieldsRoundtrip : ∀ (fs : GoFields) (l : List (String × JVal)),
    GoFields.toJson fs = some l → goFieldsOf l = fs
  | .nil, l, h => by
    simp [GoFields.toJson] at h
    subst h
    rfl
  | .cons k v rest, l, h => by
    simp [GoFields.toJson, Option.bind_eq_some] at h
    obtain ⟨jv, hjv, jr, hjr, hl⟩ := h
    subst hl
    simp [goFieldsOf]
    exact ⟨goValRoundtrip v jv hjv, goFieldsRoundtrip rest jr hjr⟩
end

/-- Serialization determines the value: two field values with the same
JSON image are equal (losslessness of `json.Marshal` on the supported
fragment). -/
theorem goValEncodeInj (v w : GoVal) (j : JVal)
    (hv : GoVal.toJson v = some j) (hw : GoVal.toJson w = some j) : v = w :=
  (goValRoundtrip v j hv).symm.trans (goValRoundtrip w j hw)

/-- Serialization determines the field map. -/
theorem goFieldsEncodeInj (fs gs : GoFields) (l : List (String × JVal))
    (hf : GoFields.toJson fs = some l) (hg : GoFields.toJson gs = some l) : fs = gs :=
  (goFieldsRoundtrip fs l hf).symm.trans (goFieldsRoundtrip gs l hg)

/-- The `LogMessage` struct of the Go source: timestamp, level and
message template strings plus the optional field map (`none` models a
`nil` Go map). -/
structure LogMessage where
  Timestamp : String
  Level : String
  MessageTemplate : String
  Fields : Option GoFields

/-- `validateLogMessage`: rejects the message when any of the three
required strings is empty, with the error text of the Go source. -/
def validateLogMessage (m : LogMessage) : Except String Unit :=
  if m.Timestamp = "" ∨ m.Level = "" ∨ m.MessageTemplate = "" then
    .error "missing required log message fields"
  else
    .ok ()

/-- `json.Marshal` of the `Properties` entry: a `nil` Go map serializes
to JSON `null`, a non-nil map to a JSON object. -/
def marshalFields : Option GoFields → Option JVal
  | none => some .null
  | some fs => Option.map JVal.obj (GoFields.toJson fs)

/-- The worker's wire payload for one dequeued message: the `Events`
wrapper object built at the top of the loop body, serialized by
`json.Marshal` (which fails iff a field value is unsupported). -/
def marshalPayload (m : LogMessage) : Option JVal :=
  Option.map
    (fun props => JVal.obj [("Events", JVal.arr [JVal.obj
      [("Timestamp", JVal.str m.Timestamp),
       ("Level", JVal.str m.Level),
       ("MessageTemplate", JVal.str m.MessageTemplate),
       ("Properties", props)]])])
    (marshalFields m.Fields)

/-- The keys of a JSON object, `none` on a non-object. -/
def JVal.objKeys : JVal → Option (List String)
  | .obj l => some (l.map Prod.fst)
  | _ => none

/-- Look a key up in a JSON object, `none` on a non-object. -/
def JVal.objGet : JVal → String → Option JVal
  | .obj l, k => Option.map Prod.snd (l.find? (fun p => p.1 == k))
  | _, _ => none

/-- The dispatcher configuration of the `SEQLogger` struct (the channel
itself is modelled separately, as the worker's input list and as the
transition system `ChanStep`). -/
structure SEQLogger where
  seqURL : String
  apiKey : String

/-- An HTTP request as assembled by the worker: method, target URL, the
marshalled JSON body and the header list. -/
structure HttpRequest where
  method : String
  url : String
  body : JVal
  headers : List (String × String)

/-- `http.NewRequest`: fails when the URL cannot be parsed, which for
`net/url` means it contains an ASCII control character. -/
def newRequest (method url : String) (body : JVal) : Option HttpRequest :=
  if url.toList.any (fun c => c.toNat < 32) then none
  else some ⟨method, url, body, []⟩

/-- `req.Header.Set`: replaces any existing entry for the key, then
appends the new one. -/
def setHeader (hs : List (String × String)) (k v : String) : List (String × String) :=
  hs.filter (fun p => p.1 != k) ++ [(k, v)]

/-- Header lookup by exact key. -/
def getHeader (hs : List (String × String)) (k : String) : Option String :=
  Option.map Prod.snd (hs.find? (fun p => p.1 == k))

/-- The request-construction part of the loop body: `http.NewRequest`
followed by the `Content-Type` header and, when the configured API key
is non-empty, the `X-Seq-ApiKey` header. -/
def buildRequest (cfg : SEQLogger) (data : JVal) : Option HttpRequest :=
  match newRequest "POST" cfg.seqURL data with
  | none => none
  | some req0 =>
    let h1 := setHeader req0.headers "Content-Type" "application/json"
    let h2 := if cfg.apiKey != "" then setHeader h1 "X-Seq-ApiKey" cfg.apiKey else h1
    some ⟨req0.method, req0.url, req0.body, h2⟩

/-- The request the worker sends for a message, when both marshalling
and request construction succeed. -/
def requestFor (cfg : SEQLogger) (m : LogMessage) : Option HttpRequest :=
  (marshalPayload m).bind (buildRequest cfg)

/-- Result of one `client.Do` call, supplied by the transport oracle:
either a transport-level error (no response, no body) or a response
with status code, status line and body text. -/
inductive SendResult where
  | transportError : String → SendResult
  | response : Nat → String → String → SendResult

/-- Observable actions of the program, one per `log.Printf` call of the
source plus `sent` marking that a request was handed to `client.Do`. -/
inductive Event where
  | marshalFail : Event
  | requestFail : Event
  | transportFail : String → Event
  | serverError : String → String → Event
  | localLog : String → String → Event
  | sent : HttpRequest → Event
  | validationFail : Event

/-- One iteration of the worker loop for a dequeued message `m`, with
`tr k` the transport's answer to the k-th send. Returns the events of
the iteration, the number of sends performed (0 or 1) and the number of
response bodies opened (1 exactly when `client.Do` returned a
response). Mirrors the branch structure of `processLogs`: each failure
is handled with `continue`, so the iteration always terminates normally
and never propagates an error. -/
def workerStep (cfg : SEQLogger) (tr : Nat → SendResult) (k : Nat) (m : LogMessage) :
    List Event × Nat × Nat :=
  match marshalPayload m with
  | none => ([.marshalFail, .localLog m.Level m.MessageTemplate], 0, 0)
  | some data =>
    match buildRequest cfg data with
    | none => ([.requestFail, .localLog m.Level m.MessageTemplate], 0, 0)
    | some req =>
      match tr k with
      | .transportError e =>
        ([.sent req, .transportFail e, .localLog m.Level m.MessageTemplate], 1, 0)
      | .response status statusText body =>
        if status ≠ 200 then
          ([.sent req, .serverError statusText body,
            .localLog m.Level m.MessageTemplate], 1, 1)
        else
          ([.sent req], 1, 1)

/-- The worker loop `processLogs`, drained over the queue contents `q`:
the trace of events it produces, starting from send counter `k`. -/
def processLogs (cfg : SEQLogger) (tr : Nat → SendResult) : Nat → List LogMessage → List Event
  | _, [] => []
  | k, m :: rest =>
    (workerStep cfg tr k m).1 ++ processLogs cfg tr (k + (workerStep cfg tr k m).2.1) rest

/-- Number of response bodies opened while the loop processes `q` and
still open when the loop has consumed `q`: `defer resp.Body.Close()`
inside the `for range` loop only registers the close to run when
`processLogs` itself returns, so no body is closed while the loop is
still running. -/
def openBodiesAfter (cfg : SEQLogger) (tr : Nat → SendResult) : Nat → List LogMessage → Nat
  | _, [] => 0
  | k, m :: rest =>
    (workerStep cfg tr k m).2.2 + openBodiesAfter cfg tr (k + (workerStep cfg tr k m).2.1) rest

/-- Number of response bodies the iteration for `m` closes before the
next queue item is processed. The source defers the close to function
exit rather than performing it in the iteration, so this is zero on
every branch. -/
def closedBeforeNextItem (cfg : SEQLogger) (tr : Nat → SendResult) (k : Nat)
    (m : LogMessage) : Nat :=
  match workerStep cfg tr k m with
  | _ => 0

/-- Events marking that the worker took up an entry and carried its
iteration to the point of success or terminal failure: exactly one of
`marshalFail`, `requestFail` or `sent` occurs per dequeued entry. -/
def isAttempt : Event → Bool
  | .marshalFail => true
  | .requestFail => true
  | .sent _ => true
  | _ => false

/-- Events reporting a failure (every `log.Printf` of an error). -/
def isFailure : Event → Bool
  | .marshalFail => true
  | .requestFail => true
  | .transportFail _ => true
  | .serverError _ _ => true
  | .validationFail => true
  | _ => false

/-- The requests handed to `client.Do`, in trace order. -/
def sentRequests (evs : List Event) : List HttpRequest :=
  evs.filterMap (fun e => match e with | .sent r => some r | _ => none)

/-- A UTC wall-clock instant, the result of `time.Now().UTC()`. -/
structure DateTime where
  year : Nat
  month : Nat
  day : Nat
  hour : Nat
  minute : Nat
  second : Nat

/-- Two-digit zero padding of `time.Format`. -/
def pad2 (n : Nat) : String :=
  if n < 10 then "0" ++ toString n else toString n

/-- Four-digit zero padding of `time.Format` for the year. -/
def pad4 (n : Nat) : String :=
  if n < 10 then "000" ++ toString n
  else if n < 100 then "00" ++ toString n
  else if n < 1000 then "0" ++ toString n
  else toString n

/-- `t.Format(time.RFC3339)` for a UTC instant: `YYYY-MM-DDTHH:MM:SSZ`. -/
def formatRFC3339 (t : DateTime) : String :=
  pad4 t.year ++ "-" ++ pad2 t.month ++ "-" ++ pad2 t.day ++ "T" ++
    pad2 t.hour ++ ":" ++ pad2 t.minute ++ ":" ++ pad2 t.second ++ "Z"

/-- The `LogMessage` literal built at the top of `Log`: the timestamp
comes from the clock, never from the caller. -/
def mkLogMessage (now : DateTime) (level message : String) (fields : Option GoFields) :
    LogMessage :=
  ⟨formatRFC3339 now, level, message, fields⟩

/-- The public `Log` method: build the message, validate it, and either
report locally and return without enqueueing, or append the message to
the queue. Returns the new queue contents and the events of the call. -/
def Log (now : DateTime) (level message : String) (fields : Option GoFields)
    (q : List LogMessage) : List LogMessage × List Event :=
  match validateLogMessage (mkLogMessage now level message fields) with
  | .error _ => (q, [.validationFail, .localLog level message])
  | .ok _ => (q ++ [mkLogMessage now level message fields], [])

/-- One producer call to `Log`: clock reading, level, message, fields. -/
structure LogCall where
  now : DateTime
  level : String
  message : String
  fields : Option GoFields

/-- Queue contents after a sequence of `Log` calls starting from `q`. -/
def runCalls : List LogCall → List LogMessage → List LogMessage
  | [], q => q
  | c :: cs, q => runCalls cs (Log c.now c.level c.message c.fields q).1

/-- Go buffered-channel semantics for `logChan := make(chan LogMessage,
cap)`: a send is enabled only while the buffer holds fewer than `cap`
messages (otherwise the sending goroutine blocks), and a receive pops
the front of the buffer. -/
inductive ChanStep (cap : Nat) : List LogMessage → List LogMessage → Prop where
  | send (m : LogMessage) (q : List LogMessage) (h : q.length < cap) :
      ChanStep cap q (q ++ [m])
  | recv (m : LogMessage) (q : List LogMessage) : ChanStep cap (m :: q) q

/-- Buffer contents reachable from the empty buffer the channel starts
with. -/
def ChanReachable (cap : Nat) (q : List LogMessage) : Prop :=
  Relation.ReflTransGen (ChanStep cap) [] q

/-- `marshalFields` is injective on its success domain: the serialized
`Properties` value determines the field map. -/
theorem marshalFields_inj (f g : Option GoFields) (j : JVal)
    (hf : marshalFields f = some j) (hg : marshalFields g = some j) : f = g := by
  cases f with
  | none =>
    cases g with
    | none => rfl
    | some gs =>
      simp [marshalFields] at hf hg
      obtain ⟨l, _, hl⟩ := hg
      rw [← hf] at hl
      exact absurd hl (by simp)
  | some fs =>
    cases g with
    | none =>
      simp [marshalFields] at hf hg
      obtain ⟨l, _, hl⟩ := hf
      rw [← hg] at hl
      exact absurd hl (by simp)
    | some gs =>
      simp [marshalFields] at hf hg
      obtain ⟨l, hfl, hl⟩ := hf
      obtain ⟨l2, hgl, hl2⟩ := hg
      have hll : l = l2 := by
        have := hl.trans hl2.symm
        simpa using this
      subst hll
      rw [goFieldsEncodeInj fs gs l hfl hgl]

/-- C1: the wire payload for a dequeued entry is a JSON object with the
single key `Events` holding a one-element array whose element carries
exactly the entry's timestamp, level, message template and fields
mapping, and the serialized `Properties` value determines the fields
mapping (lossless). -/
theorem marshalPayload_wire_shape (m : LogMessage) (w : JVal)
    (h : marshalPayload m = some w) :
    JVal.objKeys w = some ["Events"] ∧
    ∃ e props,
      JVal.objGet w "Events" = some (JVal.arr [e]) ∧
      JVal.objGet e "Timestamp" = some (JVal.str m.Timestamp) ∧
      JVal.objGet e "Level" = some (JVal.str m.Level) ∧
      JVal.objGet e "MessageTemplate" = some (JVal.str m.MessageTemplate) ∧
      JVal.objGet e "Properties" = some props ∧
      marshalFields m.Fields = some props ∧
      ∀ f2, marshalFields f2 = some props → f2 = m.Fields := by
  simp only [marshalPayload, Option.map_eq_some'] at h
  obtain ⟨props, hprops, hw⟩ := h
  subst hw
  refine ⟨rfl, ⟨_, props, rfl, rfl, rfl, rfl, rfl, hprops, ?_⟩⟩
  intro f2 h2
  exact marshalFields_inj f2 m.Fields props h2 hprops

/-- Concrete message exercising `marshalPayload`. -/
def msgC1 : LogMessage :=
  ⟨"2024-01-02T03:04:05Z", "Error", "boom", some (.cons "k" (.gstr "v") .nil)⟩

/-- The wire payload `marshalPayload` produces for `msgC1`. -/
def wireC1 : JVal :=
  JVal.obj [("Events", JVal.arr [JVal.obj
    [("Timestamp", JVal.str "2024-01-02T03:04:05Z"),
     ("Level", JVal.str "Error"),
     ("MessageTemplate", JVal.str "boom"),
     ("Properties", JVal.obj [("k", JVal.str "v")])]])]

/-- Witness for C1 at a concrete entry with a non-empty field map. -/
theorem marshalPayload_wire_shape_witness :
    JVal.objKeys wireC1 = some ["Events"] ∧
    ∃ e props,
      JVal.objGet wireC1 "Events" = some (JVal.arr [e]) ∧
      JVal.objGet e "Timestamp" = some (JVal.str msgC1.Timestamp) ∧
      JVal.objGet e "Level" = some (JVal.str msgC1.Level) ∧
      JVal.objGet e "MessageTemplate" = some (JVal.str msgC1.MessageTemplate) ∧
      JVal.objGet e "Properties" = some props ∧
      marshalFields msgC1.Fields = some props ∧
      ∀ f2, marshalFields f2 = some props → f2 = msgC1.Fields :=
  marshalPayload_wire_shape msgC1 wireC1 rfl

/-- C2: validation succeeds exactly when timestamp, level and message
template are all non-empty, fails with the missing-field error when any
is empty, and never looks at the fields map. -/
theorem validateLogMessage_spec (m : LogMessage) :
    (validateLogMessage m = .ok () ↔
      (m.Timestamp ≠ "" ∧ m.Level ≠ "" ∧ m.MessageTemplate ≠ "")) ∧
    ((m.Timestamp = "" ∨ m.Level = "" ∨ m.MessageTemplate = "") →
      validateLogMessage m = .error "missing required log message fields") ∧
    (∀ f, validateLogMessage (LogMessage.mk m.Timestamp m.Level m.MessageTemplate f) =
      validateLogMessage m) := by
  refine ⟨?_, ?_, fun f => rfl⟩
  · unfold validateLogMessage
    split
    · rename_i hcond
      constructor
      · intro hc
        exact absurd hc (by simp)
      · intro hc
        exact absurd hcond (by tauto)
    · rename_i hcond
      push_neg at hcond
      simp [hcond]
  · intro hcond
    unfold validateLogMessage
    simp [hcond]

/-- Witness for C2's error direction at a concrete entry. -/
theorem validateLogMessage_spec_witness :
    validateLogMessage ⟨"t", "", "m", none⟩ =
      .error "missing required log message fields" :=
  (validateLogMessage_spec ⟨"t", "", "m", none⟩).2.1 (by simp)

/-- `formatRFC3339` never yields the empty string. -/
theorem formatRFC3339_ne_empty (t : DateTime) : formatRFC3339 t ≠ "" := by
  intro h
  have hlen := congrArg String.length h
  simp [formatRFC3339, String.length_append] at hlen
  exact absurd hlen.2 (by decide)

/-- C10: `Log` always stamps the entry with the RFC3339-formatted
current time, which is non-empty, so the constructed entry fails
validation exactly when the caller-supplied level or message is empty. -/
theorem Log_timestamp_spec (now : DateTime) (lv msg : String) (f : Option GoFields) :
    (mkLogMessage now lv msg f).Timestamp = formatRFC3339 now ∧
    (mkLogMessage now lv msg f).Timestamp ≠ "" ∧
    (validateLogMessage (mkLogMessage now lv msg f) = .ok () ↔ (lv ≠ "" ∧ msg ≠ "")) := by
  refine ⟨rfl, formatRFC3339_ne_empty now, ?_⟩
  have hts : (mkLogMessage now lv msg f).Timestamp ≠ "" := formatRFC3339_ne_empty now
  unfold validateLogMessage
  split
  · rename_i hcond
    constructor
    · intro hc
      exact absurd hc (by simp)
    · intro hc
      rcases hcond with h | h | h
      · exact absurd h hts
      · exact absurd h hc.1
      · exact absurd h hc.2
  · rename_i hcond
    push_neg at hcond
    constructor
    · intro _
      exact ⟨hcond.2.1, hcond.2.2⟩
    · intro _
      rfl

/-- Every dequeued entry produces exactly one attempt marker: the
iteration ends in `marshalFail`, `requestFail` or a `sent` request. -/
theorem workerStep_attempts (cfg : SEQLogger) (tr : Nat → SendResult) (k : Nat)
    (m : LogMessage) : ((workerStep cfg tr k m).1.countP isAttempt) = 1 := by
  unfold workerStep
  split
  · simp [List.countP_cons, List.countP_nil, isAttempt]
  · split
    · simp [List.countP_cons, List.countP_nil, isAttempt]
    · split
      · simp [List.countP_cons, List.countP_nil, isAttempt]
      · split <;> simp [List.countP_cons, List.countP_nil, isAttempt]

/-- C4: every queued entry is processed: regardless of how earlier
entries fail (bad serialization, bad request, transport error, non-200
response — the transport oracle is arbitrary), the worker trace holds
exactly one attempt per queue element, and failures surface only as
trace events, never as an error value. -/
theorem processLogs_processes_every_entry (cfg : SEQLogger) (tr : Nat → SendResult)
    (k : Nat) (q : List LogMessage) :
    ((processLogs cfg tr k q).countP isAttempt) = q.length := by
  induction q generalizing k with
  | nil => rfl
  | cons m rest ih =>
    simp [processLogs, List.countP_append, workerStep_attempts, ih]
    omega

/-- The requests an iteration hands to `client.Do` are exactly
`requestFor` of the dequeued entry, when defined. -/
theorem workerStep_sent (cfg : SEQLogger) (tr : Nat → SendResult) (k : Nat)
    (m : LogMessage) :
    sentRequests (workerStep cfg tr k m).1 = (requestFor cfg m).toList := by
  unfold workerStep
  cases hm : marshalPayload m with
  | none => simp [sentRequests, requestFor, hm]
  | some data =>
    cases hb : buildRequest cfg data with
    | none => simp [sentRequests, requestFor, hm, hb]
    | some req =>
      cases tr k with
      | transportError e => simp [sentRequests, requestFor, hm, hb]
      | response status statusText body =>
        by_cases hs : status ≠ 200 <;> simp [sentRequests, requestFor, hm, hb, hs]

/-- The worker's send trace is the queue mapped through `requestFor`,
in queue order. -/
theorem sentRequests_processLogs (cfg : SEQLogger) (tr : Nat → SendResult) :
    ∀ (k : Nat) (q : List LogMessage),
    sentRequests (processLogs cfg tr k q) = q.filterMap (requestFor cfg)
  | _, [] => rfl
  | k, m :: rest => by
    simp only [processLogs, sentRequests, List.filterMap_append, List.filterMap_cons]
    rw [show (List.filterMap (fun e => match e with | .sent r => some r | _ => none)
          (workerStep cfg tr k m).1) = sentRequests (workerStep cfg tr k m).1 from rfl,
        workerStep_sent cfg tr k m,
        show (List.filterMap (fun e => match e with | .sent r => some r | _ => none)
          (processLogs cfg tr (k + (workerStep cfg tr k m).2.1) rest)) =
          sentRequests (processLogs cfg tr (k + (workerStep cfg tr k m).2.1) rest) from rfl,
        sentRequests_processLogs cfg tr (k + (workerStep cfg tr k m).2.1) rest]
    cases requestFor cfg m <;> simp

/-- C7: strict FIFO delivery — the sequence of requests handed to the
transport equals the queue contents, in enqueue order, mapped through
request construction; the single sequential worker sends one request at
a time, so no entry is reordered or sent in parallel. -/
theorem processLogs_fifo (cfg : SEQLogger) (tr : Nat → SendResult) (k : Nat)
    (q : List LogMessage) :
    sentRequests (processLogs cfg tr k q) = q.filterMap (requestFor cfg) :=
  sentRequests_processLogs cfg tr k q

/-- A sent request in the worker trace originates from a queue entry. -/
theorem sent_mem_requestFor (cfg : SEQLogger) (tr : Nat → SendResult) (k : Nat)
    (q : List LogMessage) (req : HttpRequest)
    (h : Event.sent req ∈ processLogs cfg tr k q) :
    ∃ m, m ∈ q ∧ requestFor cfg m = some req := by
  have hmem : req ∈ sentRequests (processLogs cfg tr k q) := by
    unfold sentRequests
    rw [List.mem_filterMap]
    exact ⟨Event.sent req, h, rfl⟩
  rw [sentRequests_processLogs cfg tr k q] at hmem
  rw [List.mem_filterMap] at hmem
  exact hmem

/-- `http.NewRequest` returns the bare request with no headers. -/
theorem newRequest_some (method url : String) (body : JVal) (r : HttpRequest)
    (h : newRequest method url body = some r) : r = ⟨method, url, body, []⟩ := by
  unfold newRequest at h
  split at h
  · exact absurd h (by simp)
  · exact (Option.some_inj.mp h).symm

/-- The header list of any constructed request, by the two `Header.Set`
calls of the source. -/
theorem requestFor_headers (cfg : SEQLogger) (m : LogMessage) (req : HttpRequest)
    (h : requestFor cfg m = some req) :
    req.headers = if cfg.apiKey != "" then
        [("Content-Type", "application/json"), ("X-Seq-ApiKey", cfg.apiKey)]
      else [("Content-Type", "application/json")] := by
  unfold requestFor at h
  cases hm : marshalPayload m with
  | none => rw [hm] at h; exact absurd h (by simp)
  | some data =>
    rw [hm] at h
    simp only [Option.some_bind] at h
    unfold buildRequest at h
    cases hn : newRequest "POST" cfg.seqURL data with
    | none => rw [hn] at h; exact absurd h (by simp)
    | some req0 =>
      rw [hn] at h
      simp only at h
      have h0 : req0 = ⟨"POST", cfg.seqURL, data, []⟩ := newRequest_some _ _ _ _ hn
      rw [Option.some_inj] at h
      subst h
      subst h0
      by_cases hk : cfg.apiKey = ""
      · have hk2 : ¬((cfg.apiKey != "") = true) := by simp [hk]
        rw [if_neg hk2]
        simp only [if_neg hk2]
        rfl
      · have hk2 : (cfg.apiKey != "") = true := bne_iff_ne.mpr hk
        rw [if_pos hk2]
        simp only [if_pos hk2]
        rfl

/-- C5: every request the worker constructs carries
`Content-Type: application/json`, and carries `X-Seq-ApiKey` set to the
configured key exactly when that key is non-empty. -/
theorem sent_request_headers (cfg : SEQLogger) (tr : Nat → SendResult) (k : Nat)
    (q : List LogMessage) (req : HttpRequest)
    (h : Event.sent req ∈ processLogs cfg tr k q) :
    getHeader req.headers "Content-Type" = some "application/json" ∧
    (cfg.apiKey ≠ "" → getHeader req.headers "X-Seq-ApiKey" = some cfg.apiKey) ∧
    (cfg.apiKey = "" → getHeader req.headers "X-Seq-ApiKey" = none) := by
  obtain ⟨m, _, hreq⟩ := sent_mem_requestFor cfg tr k q req h
  have hh := requestFor_headers cfg m req hreq
  by_cases hk : cfg.apiKey = ""
  · have hk2 : ¬((cfg.apiKey != "") = true) := by simp [hk]
    rw [if_neg hk2] at hh
    rw [hh]
    exact ⟨rfl, fun hne => absurd hk hne, fun _ => rfl⟩
  · have hk2 : (cfg.apiKey != "") = true := bne_iff_ne.mpr hk
    rw [if_pos hk2] at hh
    rw [hh]
    exact ⟨rfl, fun _ => rfl, fun he => absurd he hk⟩

/-- Concrete dispatcher configuration for the worker witnesses. -/
def cfgW : SEQLogger := ⟨"u", "key1"⟩

/-- Concrete valid message for the worker witnesses. -/
def msgW : LogMessage := ⟨"t", "E", "m", none⟩

/-- Transport oracle answering every send with HTTP 200. -/
def trOk : Nat → SendResult := fun _ => .response 200 "200 OK" ""

/-- The request the worker builds for `msgW` under `cfgW`. -/
def reqW : HttpRequest :=
  ⟨"POST", "u",
   JVal.obj [("Events", JVal.arr [JVal.obj
     [("Timestamp", JVal.str "t"), ("Level", JVal.str "E"),
      ("MessageTemplate", JVal.str "m"), ("Properties", JVal.null)]])],
   [("Content-Type", "application/json"), ("X-Seq-ApiKey", "key1")]⟩

/-- Witness for C5 on a concrete worker run. -/
theorem sent_request_headers_witness :
    getHeader reqW.headers "Content-Type" = some "application/json" ∧
    getHeader reqW.headers "X-Seq-ApiKey" = some "key1" := by
  have hmem : Event.sent reqW ∈ processLogs cfgW trOk 0 [msgW] := by
    rw [show processLogs cfgW trOk 0 [msgW] = [Event.sent reqW] from rfl]
    exact List.mem_singleton.mpr rfl
  exact ⟨(sent_request_headers cfgW trOk 0 [msgW] reqW hmem).1,
         (sent_request_headers cfgW trOk 0 [msgW] reqW hmem).2.1 (by decide)⟩

/-- Reduction of `Log` on the validation-failure branch. -/
theorem Log_error (now : DateTime) (lv msg : String) (f : Option GoFields)
    (q : List LogMessage) (err : String)
    (hv : validateLogMessage (mkLogMessage now lv msg f) = .error err) :
    Log now lv msg f q = (q, [.validationFail, .localLog lv msg]) := by
  unfold Log
  rw [hv]

/-- Reduction of `Log` on the validation-success branch. -/
theorem Log_ok (now : DateTime) (lv msg : String) (f : Option GoFields)
    (q : List LogMessage) (u : Unit)
    (hv : validateLogMessage (mkLogMessage now lv msg f) = .ok u) :
    Log now lv msg f q = (q ++ [mkLogMessage now lv msg f], []) := by
  unfold Log
  rw [hv]

/-- C6: whenever an iteration of the worker (or a `Log` call) reports a
failure, the same iteration also writes the local fallback line carrying
the lost entry's level and message template. -/
theorem failure_report_includes_entry (cfg : SEQLogger) (tr : Nat → SendResult)
    (k : Nat) (m : LogMessage) (now : DateTime) (lv msg : String)
    (f : Option GoFields) (q : List LogMessage) :
    (∀ e, e ∈ (workerStep cfg tr k m).1 → isFailure e = true →
      Event.localLog m.Level m.MessageTemplate ∈ (workerStep cfg tr k m).1) ∧
    (∀ e, e ∈ (Log now lv msg f q).2 → isFailure e = true →
      Event.localLog lv msg ∈ (Log now lv msg f q).2) := by
  constructor
  · unfold workerStep
    split
    · intro e _ _
      simp
    · split
      · intro e _ _
        simp
      · split
        · intro e _ _
          simp
        · split
          · intro e _ _
            simp
          · intro e he hf
            rw [List.mem_singleton.mp he] at hf
            simp [isFailure] at hf
  · intro e he hf
    cases hv : validateLogMessage (mkLogMessage now lv msg f) with
    | error err =>
      rw [Log_error now lv msg f q err hv]
      simp
    | ok u =>
      rw [Log_ok now lv msg f q u hv] at he
      simp at he

/-- Transport oracle failing every send at the connection level. -/
def trErr : Nat → SendResult := fun _ => .transportError "connection refused"

/-- Witness for C6: a transport failure is accompanied by the local
fallback line with the entry's level and template. -/
theorem failure_report_includes_entry_witness :
    Event.localLog "E" "m" ∈ (workerStep cfgW trErr 0 msgW).1 :=
  (failure_report_includes_entry cfgW trErr 0 msgW ⟨0, 0, 0, 0, 0, 0⟩ "E" "m" none []).1
    (Event.transportFail "connection refused")
    (by
      rw [show (workerStep cfgW trErr 0 msgW).1 =
        [Event.sent reqW, Event.transportFail "connection refused",
         Event.localLog "E" "m"] from rfl]
      exact List.mem_cons_of_mem _ (List.mem_cons_self _ _))
    rfl

/-- Entries that passed validation stay the only queue inhabitants
through any sequence of `Log` calls. -/
theorem runCalls_validated (cs : List LogCall) : ∀ (q : List LogMessage),
    (∀ m ∈ q, validateLogMessage m = .ok ()) →
    ∀ m ∈ runCalls cs q, validateLogMessage m = .ok () := by
  induction cs with
  | nil =>
    intro q hq
    simpa [runCalls] using hq
  | cons c cs ih =>
    intro q hq
    rw [show runCalls (c :: cs) q =
      runCalls cs (Log c.now c.level c.message c.fields q).1 from rfl]
    refine ih _ ?_
    cases hv : validateLogMessage (mkLogMessage c.now c.level c.message c.fields) with
    | error err =>
      rw [Log_error _ _ _ _ _ _ hv]
      simpa using hq
    | ok u =>
      cases u
      rw [Log_ok _ _ _ _ _ _ hv]
      simp only
      intro m hm
      rcases List.mem_append.mp hm with hin | hone
      · exact hq m hin
      · rw [List.mem_singleton.mp hone]
        exact hv

/-- C3: a `Log` call whose entry fails validation leaves the queue
unchanged; consequently the queue only ever holds validated entries,
and every request the worker sends stems from a validated entry. -/
theorem log_rejects_invalid (calls : List LogCall) (cfg : SEQLogger)
    (tr : Nat → SendResult) (k : Nat) (now : DateTime) (lv msg : String)
    (f : Option GoFields) (q : List LogMessage) :
    (∀ m, m ∈ runCalls calls [] → validateLogMessage m = .ok ()) ∧
    (validateLogMessage (mkLogMessage now lv msg f) ≠ .ok () →
      (Log now lv msg f q).1 = q) ∧
    (∀ req, Event.sent req ∈ processLogs cfg tr k (runCalls calls []) →
      ∃ m, m ∈ runCalls calls [] ∧ validateLogMessage m = .ok () ∧
        requestFor cfg m = some req) := by
  have hval : ∀ m, m ∈ runCalls calls [] → validateLogMessage m = .ok () :=
    runCalls_validated calls [] (by simp)
  refine ⟨hval, ?_, ?_⟩
  · intro hne
    cases hv : validateLogMessage (mkLogMessage now lv msg f) with
    | error err => rw [Log_error now lv msg f q err hv]
    | ok u =>
      cases u
      exact absurd hv hne
  · intro req hreq
    obtain ⟨m, hm, hfor⟩ := sent_mem_requestFor cfg tr k (runCalls calls []) req hreq
    exact ⟨m, hm, hval m hm, hfor⟩

/-- A fixed clock reading for the `Log` witnesses. -/
def dtW : DateTime := ⟨2024, 1, 2, 3, 4, 5⟩

/-- Witness for C3: an empty-message call leaves the queue empty, and
the entry a valid call enqueues passes validation. -/
theorem log_rejects_invalid_witness :
    (Log dtW "Error" "" none []).1 = [] ∧
    validateLogMessage (mkLogMessage dtW "Information" "started" none) = .ok () := by
  constructor
  · exact (log_rejects_invalid [] cfgW trOk 0 dtW "Error" "" none []).2.1
      (by
        simp [validateLogMessage]
        intro _ _
        rfl)
  · exact (log_rejects_invalid [⟨dtW, "Information", "started", none⟩]
        cfgW trOk 0 dtW "Error" "" none []).1
      (mkLogMessage dtW "Information" "started" none)
      (by
        rw [show runCalls [⟨dtW, "Information", "started", none⟩] [] =
          [mkLogMessage dtW "Information" "started" none] from rfl]
        exact List.mem_singleton.mpr rfl)

/-- C8 is violated by the source: `defer resp.Body.Close()` inside the
`for range` loop postpones every close until `processLogs` returns, so
after the iteration for a successfully-sent entry its response body is
still open (1 open body, 0 closes) when the next item is processed. -/
theorem processLogs_body_leak :
    openBodiesAfter cfgW trOk 0 [msgW] = 1 ∧
    closedBeforeNextItem cfgW trOk 0 msgW = 0 :=
  ⟨rfl, rfl⟩

/-- C9: the channel buffer never exceeds its capacity; when it is full
the producer's send is not enabled and the only possible step is the
worker's receive, after which a send is enabled again; and a send
appends exactly the produced entry (nothing is dropped). -/
theorem chan_backpressure (cap : Nat) (q : List LogMessage) :
    (ChanReachable cap q → q.length ≤ cap) ∧
    (q.length = cap → ∀ q2, ChanStep cap q q2 →
      (∃ m, q = m :: q2) ∧ (∀ x, ChanStep cap q2 (q2 ++ [x]))) ∧
    (∀ q2, ChanStep cap q q2 →
      (∃ m, q2 = q ++ [m] ∧ q.length < cap) ∨ (∃ m, q = m :: q2)) := by
  refine ⟨?_, ?_, ?_⟩
  · intro h
    induction h with
    | refl => simp
    | tail _ hstep ih =>
      cases hstep with
      | send m q2 hlt =>
        simp
        omega
      | recv m q2 =>
        simp at ih
        omega
  · intro hfull q2 hstep
    cases hstep with
    | send m q hlt =>
      rw [hfull] at hlt
      exact absurd hlt (by omega)
    | recv m q2 =>
      refine ⟨⟨m, rfl⟩, fun x => ChanStep.send x q2 ?_⟩
      simp at hfull
      omega
  · intro q2 hstep
    cases hstep with
    | send m q hlt => exact Or.inl ⟨m, rfl, hlt⟩
    | recv m q2 => exact Or.inr ⟨m, rfl⟩

/-- Witness for C9 with a capacity-1 channel: the reachable singleton
buffer respects the bound, and from the full buffer the only step is
the receive that frees the slot. -/
theorem chan_backpressure_witness :
    List.length [msgW] ≤ 1 ∧ (∃ m, [msgW] = m :: ([] : List LogMessage)) :=
  ⟨(chan_backpressure 1 [msgW]).1
      (Relation.ReflTransGen.single (ChanStep.send msgW [] (by decide))),
   ((chan_backpressure 1 [msgW]).2.1 rfl [] (ChanStep.recv msgW [])).1⟩

/-- Witness for C10: a concrete `Log` construction carries a non-empty
timestamp and passes validation when level and message are non-empty. -/
theorem Log_timestamp_spec_witness :
    (mkLogMessage dtW "Information" "started" none).Timestamp ≠ "" ∧
    validateLogMessage (mkLogMessage dtW "Information" "started" none) = .ok () :=
  ⟨(Log_timestamp_spec dtW "Information" "started" none).2.1,
   (Log_timestamp_spec dtW "Information" "started" none).2.2.mpr (by decide)⟩
